import Mathlib

/-!
Verification of the anchor-resolution and patch-application subsystem of the
`playground` document editor.

Strings are modelled as their character sequences (`Str := List Char`); the
JavaScript strings in the source are sequences of UTF-16 units and all inputs
relevant to the claims are ASCII, where the two notions coincide.

The editor document is modelled as the inline content of a ProseMirror
paragraph: a list of text nodes, each carrying a text run and a set of marks.
ProseMirror positions inside the paragraph start at 1 (position 0 is the
structural boundary before the paragraph), and a text node's `nodeSize` equals
the length of its text, so the text node starting at character offset `i` of
the plain text sits at document position `i + 1`.
-/

abbrev Str := List Char

/-- An inline mark, as stored in `node.marks`: a mark type name together with
the `commentId` attribute (the only attribute the comment mark carries). -/
structure Mark where
  typeName : Str
  commentId : Str
  deriving Repr, DecidableEq

/-- A ProseMirror text node: a text run plus its set of marks. -/
structure TextNode where
  text : Str
  marks : List Mark
  deriving Repr, DecidableEq

/-- The inline content of the document's paragraph, in document order. -/
abbrev Doc := List TextNode

/-- The mark type name `"comment"` checked by `findAnchorRange`. -/
def commentMarkName : Str := "comment".toList

/-- Whether some mark of the node is a comment mark whose `commentId` attribute
equals the anchor id — the condition tested inside the `doc.descendants`
callback of `findAnchorRange` (src/src/lib/anchors/findAnchorRange.ts:24). -/
def nodeMatches (anchorId : Str) (n : TextNode) : Bool :=
  n.marks.any (fun m => m.typeName == commentMarkName && m.commentId == anchorId)

/-- The `doc.descendants` traversal of `findAnchorRange`
(src/src/lib/anchors/findAnchorRange.ts:21-36): walk the text nodes in
document order carrying the running position `pos`; on the first matching
node record `(pos, pos + nodeSize)`, on every later matching node keep the
recorded start and extend the end to `pos + nodeSize`. -/
def findAnchorRangeLoop (anchorId : Str) : Doc → Nat → Option (Nat × Nat) → Option (Nat × Nat)
  | [], _, found => found
  | n :: rest, pos, found =>
    let found' :=
      if nodeMatches anchorId n then
        match found with
        | none => some (pos, pos + n.text.length)
        | some (f, _) => some (f, pos + n.text.length)
      else found
    findAnchorRangeLoop anchorId rest (pos + n.text.length) found'

/-- `findAnchorRange(editor, anchorId)`
(src/src/lib/anchors/findAnchorRange.ts:10-43): `null` when the editor handle
is absent, otherwise the scan above starting at position 1, returning `null`
when no node matched. -/
def findAnchorRange (editor : Option Doc) (anchorId : Str) : Option (Nat × Nat) :=
  match editor with
  | none => none
  | some d => findAnchorRangeLoop anchorId d 1 none

/-- Specification helper: the `(start, end)` position span of every matching
text node, in document order. -/
def matchSpans (anchorId : Str) : Doc → Nat → List (Nat × Nat)
  | [], _ => []
  | n :: rest, pos =>
    (if nodeMatches anchorId n then [(pos, pos + n.text.length)] else []) ++
      matchSpans anchorId rest (pos + n.text.length)

/-- Specification helper: the hull of a span list — the first span's start
paired with the last span's end, or `none` for the empty list. -/
def spanHull : List (Nat × Nat) → Option (Nat × Nat)
  | [] => none
  | s :: rest => some (s.1, (rest.getLastD s).2)

/-- `editor.getText()` restricted to the paragraph model: the concatenation of
the text runs of the text nodes. -/
def getText (d : Doc) : Str :=
  (d.map (fun n => n.text)).flatten

/-- Total character length of the document's plain text. -/
def docLen (d : Doc) : Nat :=
  (d.map (fun n => n.text.length)).sum

/-- The document nodes covering the first `k` characters of the plain text,
splitting a node when `k` falls inside it (marks are kept on the split part). -/
def takeChars : Doc → Nat → Doc
  | [], _ => []
  | n :: rest, k =>
    if k ≤ n.text.length then
      (if k = 0 then [] else [⟨n.text.take k, n.marks⟩])
    else ⟨n.text, n.marks⟩ :: takeChars rest (k - n.text.length)

/-- The document nodes after the first `k` characters of the plain text,
splitting a node when `k` falls inside it (marks are kept on the split part). -/
def dropChars : Doc → Nat → Doc
  | [], _ => []
  | n :: rest, k =>
    if k < n.text.length then ⟨n.text.drop k, n.marks⟩ :: rest
    else dropChars rest (k - n.text.length)

/-- Strip every `"comment"` mark from the nodes, leaving text untouched —
the effect of the `unsetComment` editor command on a region. -/
def removeCommentMarks (d : Doc) : Doc :=
  d.map (fun n => ⟨n.text, n.marks.filter (fun m => !(m.typeName == commentMarkName))⟩)

/-- The document transaction run by `handleAcceptPatch`
(src/unnamed/part_000:314-320):
`setTextSelection(from, to)` then `insertContent(proposedText)` then
`unsetComment`, as one chain. The content of positions `from ≤ p < to`
(character offsets `from - 1` to `to - 1`) is replaced by the proposed text,
and per the spec's accept contract the anchor annotation is removed from the
affected region, so the inserted run carries no marks. -/
def applyAcceptTransaction (d : Doc) (fromPos toPos : Nat) (proposed : Str) : Doc :=
  takeChars d (fromPos - 1) ++ [⟨proposed, []⟩] ++ dropChars d (toPos - 1)

/-- The document transaction run by `handleRejectPatch` when the anchor
resolves (src/unnamed/part_000:342-347): `setTextSelection(from, to)` then
`unsetComment`, removing the comment marks on the selected region and
touching nothing else. -/
def applyUnsetComment (d : Doc) (fromPos toPos : Nat) : Doc :=
  takeChars d (fromPos - 1) ++
    removeCommentMarks (takeChars (dropChars d (fromPos - 1)) (toPos - fromPos)) ++
    dropChars d (toPos - 1)

/-- Whether `hay` starts with `needle` (character-wise equality). -/
def beginsWith : Str → Str → Bool
  | [], _ => true
  | _ :: _, [] => false
  | a :: s, b :: t => a == b && beginsWith s t

/-- JavaScript `hay.indexOf(needle)`: the smallest character offset at which
`needle` occurs in `hay`, `none` standing for the sentinel `-1`. As in
JavaScript, the empty needle is found at offset 0. -/
def indexOfSub (needle : Str) : Str → Option Nat
  | [] => if beginsWith needle [] then some 0 else none
  | c :: t =>
    if beginsWith needle (c :: t) then some 0
    else (indexOfSub needle t).map (· + 1)

/-- JavaScript `s.trim()`: the string without leading and trailing whitespace
(the inputs of interest are ASCII, where `Char.isWhitespace` agrees with the
JavaScript whitespace class). -/
def trimChars (s : Str) : Str :=
  ((s.dropWhile Char.isWhitespace).reverse.dropWhile Char.isWhitespace).reverse

-- ### Sanity checks on the document model

example :
    findAnchorRange (some [⟨"Hello ".toList, []⟩, ⟨"world".toList, [⟨commentMarkName, "t1".toList⟩]⟩])
      ("t1".toList) = some (7, 12) := by decide

example :
    findAnchorRange (some [⟨"Hello world".toList, []⟩]) ("t1".toList) = none := by decide

example : indexOfSub "foo".toList "abc foo bar".toList = some 4 := by decide

example : trimChars "  foo ".toList = "foo".toList := by decide

example :
    getText (applyAcceptTransaction [⟨"abc foo bar".toList, []⟩] 5 8 "XY".toList)
      = "abc XY bar".toList := by decide

/-!
## Persisted stores

A browser-storage slot is modelled by its observable states: the storage API
throwing (server-side render or unavailable storage), the slot holding a
payload that fails `JSON.parse` (corrupt), the slot being empty (`getItem`
returns `null`), or the slot holding a parsed value. Each store function's
`try`/`catch` (or `typeof window` guard) is translated by mapping the throwing
states to the function's catch-branch result.
-/

/-- Observable states of one browser-storage slot. -/
inductive StorageState (α : Type)
  | unavailable
  | corrupt
  | missing
  | ok (v : α)
  deriving Repr, DecidableEq

/-- Patch lifecycle status (src types: `"open" | "accepted" | "rejected"`). -/
inductive AIPatchStatus
  | open_
  | accepted
  | rejected
  deriving Repr, DecidableEq

/-- An AI patch record (src/src/lib/store/commentStore.ts types appendix). -/
structure AIPatch where
  id : Str
  documentId : Str
  anchorId : Str
  originalText : Str
  proposedText : Str
  status : AIPatchStatus
  createdAt : Nat
  updatedAt : Nat
  deriving Repr, DecidableEq

/-- The parsed patch-storage payload: a record keyed by document id holding
the document's patch list (src/src/lib/store/patchStore.ts:6). -/
abbrev PatchStorage := List (Str × List AIPatch)

/-- Record field access `storage[documentId]` (first binding of the key). -/
def lookupDoc (storage : PatchStorage) (documentId : Str) : Option (List AIPatch) :=
  (storage.find? (fun kv => kv.1 == documentId)).map (fun kv => kv.2)

/-- Record field assignment `storage[documentId] = patches`: replace the
existing binding, or append a fresh one when the key is absent. -/
def setDoc (storage : PatchStorage) (documentId : Str) (patches : List AIPatch) : PatchStorage :=
  if storage.any (fun kv => kv.1 == documentId) then
    storage.map (fun kv => if kv.1 == documentId then (kv.1, patches) else kv)
  else storage ++ [(documentId, patches)]

/-- `getPatches(documentId)` (src/src/lib/store/patchStore.ts:9-23): empty on
an absent `window`, an empty slot, or a parse failure; otherwise
`storage[documentId] || []`. -/
def getPatches (st : StorageState PatchStorage) (documentId : Str) : List AIPatch :=
  match st with
  | .unavailable => []
  | .corrupt => []
  | .missing => []
  | .ok storage => (lookupDoc storage documentId).getD []

/-- `getOpenPatchByAnchor(documentId, anchorId)`
(src/src/lib/store/patchStore.ts:26-34). -/
def getOpenPatchByAnchor (st : StorageState PatchStorage) (documentId anchorId : Str) :
    Option AIPatch :=
  (getPatches st documentId).find? (fun p => p.anchorId == anchorId && p.status == .open_)

/-- `createPatch(patch)` (src/src/lib/store/patchStore.ts:37-65). The generated
id (built from `Date.now()` and `Math.random()`) is passed in as `newId`, and
the call time as `now`. On a storage failure the catch branch still returns
the new record but persists nothing. -/
def createPatch (st : StorageState PatchStorage)
    (documentId anchorId originalText proposedText : Str) (newId : Str) (now : Nat) :
    StorageState PatchStorage × AIPatch :=
  let newPatch : AIPatch :=
    ⟨newId, documentId, anchorId, originalText, proposedText, .open_, now, now⟩
  match st with
  | .unavailable => (st, newPatch)
  | .corrupt => (st, newPatch)
  | .missing => (.ok (setDoc [] documentId [newPatch]), newPatch)
  | .ok storage =>
    let patches := (lookupDoc storage documentId).getD []
    (.ok (setDoc storage documentId (patches ++ [newPatch])), newPatch)

/-- The updatable fields of a patch: `Partial` of `AIPatch` minus `id`,
`documentId` and `createdAt` (src/src/lib/store/patchStore.ts:71). -/
structure PatchUpdates where
  anchorId : Option Str := none
  originalText : Option Str := none
  proposedText : Option Str := none
  status : Option AIPatchStatus := none
  updatedAt : Option Nat := none
  deriving Repr, DecidableEq

/-- The record spread `\x7b ...patch, ...updates, updatedAt: Date.now() \x7d`
(src/src/lib/store/patchStore.ts:84-88): protected fields are kept, provided
fields overwrite, and `updatedAt` is always overwritten by the call time. -/
def applyPatchUpdates (p : AIPatch) (u : PatchUpdates) (now : Nat) : AIPatch :=
  { id := p.id
    documentId := p.documentId
    anchorId := u.anchorId.getD p.anchorId
    originalText := u.originalText.getD p.originalText
    proposedText := u.proposedText.getD p.proposedText
    status := u.status.getD p.status
    createdAt := p.createdAt
    updatedAt := now }

/-- The `findIndex`-then-assign step of `updatePatch`
(src/src/lib/store/patchStore.ts:81-90): update the first patch whose id
matches, returning the new list and the updated record, or `none` when
`findIndex` returns `-1`. -/
def updateFirstMatch (patches : List AIPatch) (patchId : Str) (u : PatchUpdates) (now : Nat) :
    Option (List AIPatch × AIPatch) :=
  match patches with
  | [] => none
  | p :: rest =>
    if p.id == patchId then
      let updated := applyPatchUpdates p u now
      some (updated :: rest, updated)
    else (updateFirstMatch rest patchId u now).map (fun r => (p :: r.1, r.2))

/-- `updatePatch(documentId, patchId, updates)`
(src/src/lib/store/patchStore.ts:68-98): `null` with the storage untouched on
a storage failure, an empty slot, an unknown document, or an unknown patch id;
otherwise the first matching patch is replaced in place and written back. -/
def updatePatch (st : StorageState PatchStorage) (documentId patchId : Str)
    (u : PatchUpdates) (now : Nat) : StorageState PatchStorage × Option AIPatch :=
  match st with
  | .unavailable => (st, none)
  | .corrupt => (st, none)
  | .missing => (st, none)
  | .ok storage =>
    match lookupDoc storage documentId with
    | none => (st, none)
    | some patches =>
      match updateFirstMatch patches patchId u now with
      | none => (st, none)
      | some r => (.ok (setDoc storage documentId r.1), some r.2)

/-- `deletePatch(documentId, patchId)` (src/src/lib/store/patchStore.ts:101-115). -/
def deletePatch (st : StorageState PatchStorage) (documentId patchId : Str) :
    StorageState PatchStorage :=
  match st with
  | .unavailable => st
  | .corrupt => st
  | .missing => st
  | .ok storage =>
    match lookupDoc storage documentId with
    | none => st
    | some patches =>
      .ok (setDoc storage documentId (patches.filter (fun p => !(p.id == patchId))))

/-!
## Comment store

The panel in src/unnamed/part_000 works with `CommentThread` records through
the comment store, whose read/filter/write structure is
src/src/lib/store/commentStore.ts.
-/

/-- Status of an AI-authored message. -/
inductive MessageStatus
  | pending
  | complete
  | error
  deriving Repr, DecidableEq

/-- A message in a comment thread (types appendix of
src/src/lib/store/commentStore.ts). -/
structure CommentMessage where
  id : Str
  content : Str
  author : Str
  createdAt : Nat
  updatedAt : Nat
  status : Option MessageStatus := none
  deriving Repr, DecidableEq

/-- A comment thread (types appendix of src/src/lib/store/commentStore.ts).
The optional `isAIThread` flag is modelled as a Bool, `undefined` being
`false`. -/
structure CommentThread where
  id : Str
  documentId : Str
  highlightedText : Str
  messages : List CommentMessage
  resolved : Bool
  createdAt : Nat
  updatedAt : Nat
  isAIThread : Bool := false
  aiMode : Option Str := none
  deriving Repr, DecidableEq

/-- `readFromStorage()` (src/src/lib/store/commentStore.ts:7-16): empty on an
absent `window`, a parse failure, or an empty slot. -/
def readFromStorage (st : StorageState (List CommentThread)) : List CommentThread :=
  match st with
  | .unavailable => []
  | .corrupt => []
  | .missing => []
  | .ok v => v

/-- `writeToStorage(comments)` (src/src/lib/store/commentStore.ts:19-26): a
no-op on an absent `window`, otherwise `setItem` overwrites the slot with the
serialized list regardless of what the slot held. -/
def writeToStorage (st : StorageState (List CommentThread)) (comments : List CommentThread) :
    StorageState (List CommentThread) :=
  match st with
  | .unavailable => st
  | _ => .ok comments

/-- `getDocumentComments(documentId)` (src/src/lib/store/commentStore.ts:29-34):
the stored threads of the document, sorted by `createdAt` ascending. -/
def getDocumentComments (st : StorageState (List CommentThread)) (documentId : Str) :
    List CommentThread :=
  ((readFromStorage st).filter (fun c => c.documentId == documentId)).mergeSort
    (fun a b => a.createdAt ≤ b.createdAt)

/-- `getComment(id)` (src/src/lib/store/commentStore.ts:37-40). -/
def getComment (st : StorageState (List CommentThread)) (id : Str) : Option CommentThread :=
  (readFromStorage st).find? (fun c => c.id == id)

/-- The persistence step of `createComment` (src/src/lib/store/commentStore.ts:43-63):
push the freshly built record and write the list back. The record itself is
built by the caller (its id comes from `generateId()`). -/
def createComment (st : StorageState (List CommentThread)) (newThread : CommentThread) :
    StorageState (List CommentThread) :=
  writeToStorage st (readFromStorage st ++ [newThread])

/-- `deleteComment(id)` (src/src/lib/store/commentStore.ts:82-86): read,
filter out every record with the id, write back. -/
def deleteComment (st : StorageState (List CommentThread)) (id : Str) :
    StorageState (List CommentThread) :=
  writeToStorage st ((readFromStorage st).filter (fun c => !(c.id == id)))

/-- `deleteDocumentComments(documentId)` (src/src/lib/store/commentStore.ts:89-93). -/
def deleteDocumentComments (st : StorageState (List CommentThread)) (documentId : Str) :
    StorageState (List CommentThread) :=
  writeToStorage st ((readFromStorage st).filter (fun c => !(c.documentId == documentId)))

/-- Modelled from the spec: the comment store's thread-resolution operation
`toggleResolveThread`, whose source file is not in the repository snapshot
(only its callers in src/unnamed/part_000 are). The panel uses this one
function both to resolve and to reopen a thread (`handleToggleResolve`,
src/unnamed/part_000:262-265, with button titles Resolve and Reopen), and the
spec's state machine allows both transitions by explicit action, so the
operation flips the `resolved` flag of the thread with the given id,
following the store's read/filter/write pattern. -/
def toggleResolveThread (st : StorageState (List CommentThread)) (threadId : Str) :
    StorageState (List CommentThread) :=
  writeToStorage st
    ((readFromStorage st).map (fun t =>
      if t.id == threadId then
        { t with resolved := !t.resolved }
      else t))

/-!
## Panel handlers

The accept/reject/refresh handlers of the comment panel
(src/unnamed/part_000). The pieces of mutable state they reach — the editor
handle, the patch-storage slot and the comment-storage slot — are collected in
one state record; `Date.now()` is passed in as `now`.
-/

/-- The mutable state the panel handlers touch. -/
structure AppState where
  editor : Option Doc
  patchStorage : StorageState PatchStorage
  commentStorage : StorageState (List CommentThread)
  deriving Repr, DecidableEq

/-- The user-visible failure conditions of the patch handlers: the
`console.error` on a missing editor instance, and the `alert` raised when
neither strategy locates the original text. -/
inductive PatchFailure
  | editorUnavailable
  | textNotFound
  deriving Repr, DecidableEq

/-- The two-tier range lookup of `handleAcceptPatch`
(src/unnamed/part_000:294-311): first `findAnchorRange(editor, threadId)`;
when that is `null`, search `editor.getText()` for
`patch.originalText.trim()` and map a found character offset `index` to the
position range `(index + 1, index + 1 + searchText.length)`; `none` when both
fail. -/
def acceptRange (editor : Doc) (threadId : Str) (patch : AIPatch) : Option (Nat × Nat) :=
  match findAnchorRange (some editor) threadId with
  | some r => some r
  | none =>
    let docText := getText editor
    let searchText := trimChars patch.originalText
    match indexOfSub searchText docText with
    | some index => some (index + 1, index + 1 + searchText.length)
    | none => none

/-- `handleAcceptPatch(threadId, patch)` (src/unnamed/part_000:287-329):
bail out when the editor handle is absent; resolve the range by the two-tier
lookup, surfacing the could-not-locate-text alert and performing no mutation
when it fails; otherwise run the replace-and-unset transaction on the editor,
set the patch's status to accepted through `updatePatch`, and run
`toggleResolveThread` on the owning thread. -/
def handleAcceptPatch (threadId : Str) (patch : AIPatch) (documentId : Str)
    (st : AppState) (now : Nat) : AppState × Option PatchFailure :=
  match st.editor with
  | none => (st, some .editorUnavailable)
  | some editor =>
    match acceptRange editor threadId patch with
    | none => (st, some .textNotFound)
    | some r =>
      let editor' := applyAcceptTransaction editor r.1 r.2 patch.proposedText
      let patchStorage' :=
        (updatePatch st.patchStorage documentId patch.id { status := some .accepted } now).1
      let commentStorage' := toggleResolveThread st.commentStorage threadId
      (⟨some editor', patchStorage', commentStorage'⟩, none)

/-- `handleRejectPatch(threadId, patch)` (src/unnamed/part_000:332-359):
bail out when the editor handle is absent; when the anchor resolves, unset the
comment mark on its range (tolerating a miss silently); set the patch's status
to rejected through `updatePatch`; run `toggleResolveThread` on the owning
thread. -/
def handleRejectPatch (threadId : Str) (patch : AIPatch) (documentId : Str)
    (st : AppState) (now : Nat) : AppState × Option PatchFailure :=
  match st.editor with
  | none => (st, some .editorUnavailable)
  | some editor =>
    let editor' :=
      match findAnchorRange (some editor) threadId with
      | some r => applyUnsetComment editor r.1 r.2
      | none => editor
    let patchStorage' :=
      (updatePatch st.patchStorage documentId patch.id { status := some .rejected } now).1
    let commentStorage' := toggleResolveThread st.commentStorage threadId
    (⟨some editor', patchStorage', commentStorage'⟩, none)

/-- The `PatchCard` guard (src/src/components/ai/PatchCard.tsx:15,50): the
accept and reject actions are rendered only while `patch.status === "open"`
(`isResolved` otherwise), so the user-level accept is a no-op on a non-open
patch. -/
def acceptPatchViaCard (threadId : Str) (patch : AIPatch) (documentId : Str)
    (st : AppState) (now : Nat) : AppState × Option PatchFailure :=
  if patch.status == .open_ then handleAcceptPatch threadId patch documentId st now
  else (st, none)

/-- Modelled from the spec: the editor method `getAllCommentData`
(`getAllAnnotatedRangesWithLiveText` in spec section 6), whose extension
source is not in the repository snapshot. Its keys are exactly the anchor ids
annotated somewhere in the document, which is all `refreshCommentData` reads
from it; `data[thread.id]` is present iff the document carries a comment mark
with that id. -/
def docHasAnchor (d : Doc) (anchorId : Str) : Bool :=
  d.any (fun n => nodeMatches anchorId n)

/-- `refreshCommentData` (src/unnamed/part_000:93-113) restricted to its
effect on the persisted store: bail out when the editor handle (and hence
`getAllCommentData`) is absent; compute the stored threads of the document,
keep those that are not AI threads and whose anchor id is absent from the
editor, and delete each of them from the store. -/
def refreshCommentData (editor : Option Doc) (documentId : Str)
    (st : StorageState (List CommentThread)) : StorageState (List CommentThread) :=
  match editor with
  | none => st
  | some d =>
    let storedThreads := getDocumentComments st documentId
    let orphaned := storedThreads.filter (fun t => !t.isAIThread && !docHasAnchor d t.id)
    orphaned.foldl (fun s t => deleteComment s t.id) st

/-!
## Lemmas: characterizing the anchor resolver

The scan of `findAnchorRange` returns the hull of the spans of the matching
text nodes: the first matching node's start paired with the last matching
node's end.
-/

theorem getLastD_snd_irrel (l : List (Nat × Nat)) (p q : Nat × Nat) (h : p.2 = q.2) :
    (l.getLastD p).2 = (l.getLastD q).2 := by
  cases l with
  | nil => simpa using h
  | cons x xs => rw [List.getLastD_cons, List.getLastD_cons]

theorem getLastD_mem_cons {α : Type} (x : α) (xs : List α) (d : α) :
    (x :: xs).getLastD d ∈ x :: xs := by
  induction xs generalizing x with
  | nil => simp [List.getLastD_cons]
  | cons y ys ih =>
    rw [List.getLastD_cons]
    exact List.mem_cons_of_mem _ (ih y)

theorem findAnchorRangeLoop_some (a : Str) (d : Doc) :
    ∀ (pos : Nat) (p : Nat × Nat),
      findAnchorRangeLoop a d pos (some p) =
        some (p.1, ((matchSpans a d pos).getLastD p).2) := by
  induction d with
  | nil => intro pos p; simp [findAnchorRangeLoop, matchSpans]
  | cons n rest ih =>
    intro pos p
    by_cases h : nodeMatches a n
    · simp only [findAnchorRangeLoop, matchSpans, h, if_true, List.singleton_append,
        List.getLastD_cons, ih]
      exact congrArg (fun z => some (p.1, z)) (getLastD_snd_irrel _ _ _ rfl)
    · simp [findAnchorRangeLoop, matchSpans, h, ih]

theorem findAnchorRangeLoop_none (a : Str) (d : Doc) :
    ∀ pos : Nat, findAnchorRangeLoop a d pos none = spanHull (matchSpans a d pos) := by
  induction d with
  | nil => intro pos; simp [findAnchorRangeLoop, matchSpans, spanHull]
  | cons n rest ih =>
    intro pos
    by_cases h : nodeMatches a n
    · simp [findAnchorRangeLoop, h, matchSpans, spanHull, findAnchorRangeLoop_some]
    · simp [findAnchorRangeLoop, h, matchSpans, ih]

theorem findAnchorRange_eq_spanHull (d : Doc) (a : Str) :
    findAnchorRange (some d) a = spanHull (matchSpans a d 1) :=
  findAnchorRangeLoop_none a d 1

theorem matchSpans_eq_nil (a : Str) (d : Doc) :
    ∀ pos, matchSpans a d pos = [] ↔ ∀ n ∈ d, nodeMatches a n = false := by
  induction d with
  | nil => simp [matchSpans]
  | cons n rest ih =>
    intro pos
    by_cases h : nodeMatches a n
    · simp [matchSpans, h]
    · simp [matchSpans, h, ih]

theorem matchSpans_bounds (a : Str) (d : Doc) :
    ∀ pos s, s ∈ matchSpans a d pos → pos ≤ s.1 ∧ s.1 ≤ s.2 := by
  induction d with
  | nil => intro pos s hs; simp [matchSpans] at hs
  | cons n rest ih =>
    intro pos s hs
    by_cases h : nodeMatches a n <;> simp [matchSpans, h] at hs
    · rcases hs with rfl | hs
      · exact ⟨Nat.le_refl _, Nat.le_add_right _ _⟩
      · have hb := ih _ _ hs
        exact ⟨Nat.le_trans (Nat.le_add_right _ _) hb.1, hb.2⟩
    · have hb := ih _ _ hs
      exact ⟨Nat.le_trans (Nat.le_add_right _ _) hb.1, hb.2⟩

theorem matchSpans_head_le (a : Str) (d : Doc) :
    ∀ pos s rest, matchSpans a d pos = s :: rest → ∀ x ∈ rest, s.1 ≤ x.2 := by
  induction d with
  | nil => intro pos s rest h; simp [matchSpans] at h
  | cons n d' ih =>
    intro pos s rest h
    by_cases hn : nodeMatches a n <;> simp [matchSpans, hn] at h
    · obtain ⟨hs, hrest⟩ := h
      intro x hx
      rw [← hrest] at hx
      have hb := matchSpans_bounds a d' _ x hx
      have : s.1 = pos := by rw [← hs]
      omega
    · exact ih _ _ _ h

theorem spanHull_bounds (a : Str) (d : Doc) (pos f t : Nat)
    (h : spanHull (matchSpans a d pos) = some (f, t)) : pos ≤ f ∧ f ≤ t := by
  cases hms : matchSpans a d pos with
  | nil => rw [hms] at h; simp [spanHull] at h
  | cons s rest =>
    rw [hms] at h
    simp only [spanHull, Option.some.injEq, Prod.mk.injEq] at h
    obtain ⟨hf, ht⟩ := h
    have hhead := matchSpans_bounds a d pos s (hms ▸ List.mem_cons_self s rest)
    constructor
    · omega
    · cases rest with
      | nil =>
        simp [List.getLastD] at ht
        omega
      | cons r0 rs =>
        have hmem : (r0 :: rs).getLastD s ∈ r0 :: rs := getLastD_mem_cons r0 rs s
        have := matchSpans_head_le a d pos s (r0 :: rs) hms _ hmem
        omega

theorem findAnchorRange_pos_bounds (d : Doc) (a : Str) (f t : Nat)
    (h : findAnchorRange (some d) a = some (f, t)) : 1 ≤ f ∧ f ≤ t :=
  spanHull_bounds a d 1 f t (by rw [← findAnchorRange_eq_spanHull]; exact h)

/-!
## Lemmas: plain text of spliced documents
-/

theorem getText_append (d1 d2 : Doc) : getText (d1 ++ d2) = getText d1 ++ getText d2 := by
  simp [getText]

theorem getText_cons (n : TextNode) (rest : Doc) :
    getText (n :: rest) = n.text ++ getText rest := by
  simp [getText]

theorem getText_takeChars (d : Doc) : ∀ k, getText (takeChars d k) = (getText d).take k := by
  induction d with
  | nil => intro k; simp [takeChars, getText]
  | cons n rest ih =>
    intro k
    by_cases h : k ≤ n.text.length
    · by_cases h0 : k = 0
      · subst h0; simp [takeChars, getText]
      · simp [takeChars, h, h0, getText, List.take_append_eq_append_take,
          Nat.sub_eq_zero_of_le h]
    · have ht : takeChars (n :: rest) k = ⟨n.text, n.marks⟩ :: takeChars rest (k - n.text.length) := by
        simp [takeChars, h]
      rw [ht, getText_cons, getText_cons, ih, List.take_append_eq_append_take,
        List.take_of_length_le (Nat.le_of_lt (Nat.lt_of_not_le h))]

theorem getText_dropChars (d : Doc) : ∀ k, getText (dropChars d k) = (getText d).drop k := by
  induction d with
  | nil => intro k; simp [dropChars, getText]
  | cons n rest ih =>
    intro k
    by_cases h : k < n.text.length
    · have hd : dropChars (n :: rest) k = ⟨n.text.drop k, n.marks⟩ :: rest := by
        simp [dropChars, h]
      rw [hd, getText_cons, getText_cons, List.drop_append_eq_append_drop,
        Nat.sub_eq_zero_of_le (Nat.le_of_lt h), List.drop_zero]
    · have hd : dropChars (n :: rest) k = dropChars rest (k - n.text.length) := by
        simp [dropChars, h]
      rw [hd, ih, getText_cons, List.drop_append_eq_append_drop,
        List.drop_eq_nil_of_le (Nat.le_of_not_lt h), List.nil_append]

theorem getText_removeCommentMarks (d : Doc) : getText (removeCommentMarks d) = getText d := by
  induction d with
  | nil => rfl
  | cons n rest ih => simpa [removeCommentMarks, getText] using ih

theorem getText_applyAcceptTransaction (d : Doc) (f t : Nat) (p : Str) :
    getText (applyAcceptTransaction d f t p) =
      (getText d).take (f - 1) ++ p ++ (getText d).drop (t - 1) := by
  unfold applyAcceptTransaction
  rw [getText_append, getText_append, getText_takeChars, getText_dropChars]
  simp [getText]

theorem getText_applyUnsetComment (d : Doc) (f t : Nat) (h1 : 1 ≤ f) (h2 : f ≤ t) :
    getText (applyUnsetComment d f t) = getText d := by
  simp only [applyUnsetComment, getText_append, getText_removeCommentMarks,
    getText_takeChars, getText_dropChars]
  have hdd : (getText d).drop (t - 1) = (((getText d).drop (f - 1)).drop (t - f)) := by
    rw [List.drop_drop]
    congr 1
    omega
  rw [hdd, List.append_assoc, List.take_append_drop, List.take_append_drop]

/-!
## Lemmas: the accept transaction removes the anchor annotation
-/

theorem nodeMatches_of_marks_eq (a : Str) (x n : TextNode) (h : x.marks = n.marks) :
    nodeMatches a x = nodeMatches a n := by
  simp [nodeMatches, h]

theorem takeChars_marks (d : Doc) :
    ∀ k x, x ∈ takeChars d k → ∃ n ∈ d, x.marks = n.marks := by
  induction d with
  | nil => intro k x hx; simp [takeChars] at hx
  | cons n rest ih =>
    intro k x hx
    by_cases h : k ≤ n.text.length
    · by_cases h0 : k = 0 <;> simp [takeChars, h, h0] at hx
      exact ⟨n, List.mem_cons_self n rest, by rw [hx]⟩
    · simp only [takeChars, h, if_false, List.mem_cons] at hx
      rcases hx with rfl | hx
      · exact ⟨n, List.mem_cons_self n rest, rfl⟩
      · obtain ⟨m, hm, hxm⟩ := ih _ _ hx
        exact ⟨m, List.mem_cons_of_mem _ hm, hxm⟩

theorem dropChars_marks (d : Doc) :
    ∀ k x, x ∈ dropChars d k → ∃ n ∈ d, x.marks = n.marks := by
  induction d with
  | nil => intro k x hx; simp [dropChars] at hx
  | cons n rest ih =>
    intro k x hx
    by_cases h : k < n.text.length
    · simp only [dropChars, h, if_true, List.mem_cons] at hx
      rcases hx with rfl | hx
      · exact ⟨n, List.mem_cons_self n rest, rfl⟩
      · exact ⟨x, List.mem_cons_of_mem _ hx, rfl⟩
    · simp only [dropChars, h, if_false] at hx
      obtain ⟨m, hm, hxm⟩ := ih _ _ hx
      exact ⟨m, List.mem_cons_of_mem _ hm, hxm⟩

theorem takeChars_before_first (a : Str) (d : Doc) :
    ∀ pos s rest, matchSpans a d pos = s :: rest →
      ∀ x ∈ takeChars d (s.1 - pos), nodeMatches a x = false := by
  induction d with
  | nil => intro pos s rest h; simp [matchSpans] at h
  | cons n d' ih =>
    intro pos s rest h
    by_cases hn : nodeMatches a n <;> simp [matchSpans, hn] at h
    · obtain ⟨hs, _⟩ := h
      have hs1 : s.1 = pos := by rw [← hs]
      rw [hs1, Nat.sub_self]
      intro x hx
      simp [takeChars] at hx
    · rw [Bool.not_eq_true] at hn
      have hs1 : pos + n.text.length ≤ s.1 :=
        (matchSpans_bounds a d' _ s (h ▸ List.mem_cons_self s rest)).1
      intro x hx
      by_cases hk : s.1 - pos ≤ n.text.length
      · by_cases h0 : s.1 - pos = 0 <;> simp [takeChars, hk, h0] at hx
        rw [nodeMatches_of_marks_eq a x n (by rw [hx])]
        exact hn
      · simp only [takeChars, hk, if_false, List.mem_cons] at hx
        rcases hx with rfl | hx
        · exact hn
        · have harith : s.1 - pos - n.text.length = s.1 - (pos + n.text.length) := by omega
          rw [harith] at hx
          exact ih _ _ _ h x hx

theorem getLastD_mem {α : Type} (l : List α) (s : α) : l.getLastD s ∈ s :: l := by
  cases l with
  | nil => simp [List.getLastD]
  | cons x xs => exact List.mem_cons_of_mem _ (getLastD_mem_cons x xs s)

theorem dropChars_after_last (a : Str) (d : Doc) :
    ∀ pos s rest, matchSpans a d pos = s :: rest →
      ∀ x ∈ dropChars d ((rest.getLastD s).2 - pos), nodeMatches a x = false := by
  induction d with
  | nil => intro pos s rest h; simp [matchSpans] at h
  | cons n d' ih =>
    intro pos s rest h
    by_cases hn : nodeMatches a n <;> simp [matchSpans, hn] at h
    · obtain ⟨hs, hrest⟩ := h
      subst hrest
      cases hms' : matchSpans a d' (pos + n.text.length) with
      | nil =>
        have hs2 : s.2 = pos + n.text.length := by rw [← hs]
        simp only [List.getLastD, hs2]
        have hnm : ∀ m ∈ d', nodeMatches a m = false := (matchSpans_eq_nil a d' _).mp hms'
        intro x hx
        have hk : ¬(pos + n.text.length - pos < n.text.length) := by omega
        simp only [dropChars, hk, if_false] at hx
        obtain ⟨m, hm, hxm⟩ := dropChars_marks d' _ x hx
        rw [nodeMatches_of_marks_eq a x m hxm]
        exact hnm m hm
      | cons s0 r0 =>
        rw [List.getLastD_cons]
        intro x hx
        have hum : r0.getLastD s0 ∈ s0 :: r0 := getLastD_mem r0 s0
        have hub := matchSpans_bounds a d' (pos + n.text.length) _ (hms' ▸ hum)
        have hk : ¬((r0.getLastD s0).2 - pos < n.text.length) := by omega
        simp only [dropChars, hk, if_false] at hx
        have harith : (r0.getLastD s0).2 - pos - n.text.length =
            (r0.getLastD s0).2 - (pos + n.text.length) := by omega
        rw [harith] at hx
        exact ih _ _ _ hms' x hx
    · intro x hx
      have hum : rest.getLastD s ∈ s :: rest := getLastD_mem rest s
      have hub := matchSpans_bounds a d' (pos + n.text.length) _ (h ▸ hum)
      have hk : ¬((rest.getLastD s).2 - pos < n.text.length) := by omega
      simp only [dropChars, hk, if_false] at hx
      have harith : (rest.getLastD s).2 - pos - n.text.length =
          (rest.getLastD s).2 - (pos + n.text.length) := by omega
      rw [harith] at hx
      exact ih _ _ _ h x hx

theorem findAnchorRange_none_iff (d : Doc) (a : Str) :
    findAnchorRange (some d) a = none ↔ ∀ n ∈ d, nodeMatches a n = false := by
  rw [findAnchorRange_eq_spanHull]
  constructor
  · intro h
    cases hms : matchSpans a d 1 with
    | nil => exact (matchSpans_eq_nil a d 1).mp hms
    | cons s rest => rw [hms] at h; simp [spanHull] at h
  · intro h
    rw [(matchSpans_eq_nil a d 1).mpr h]
    rfl

theorem applyAccept_no_anchor (editor : Doc) (tid : Str) (patch : AIPatch) (f t : Nat) (p : Str)
    (h : acceptRange editor tid patch = some (f, t)) :
    ∀ x ∈ applyAcceptTransaction editor f t p, nodeMatches tid x = false := by
  intro x hx
  unfold applyAcceptTransaction at hx
  rw [List.append_assoc, List.mem_append] at hx
  unfold acceptRange at h
  cases hfr : findAnchorRange (some editor) tid with
  | some r =>
    rw [hfr] at h
    simp only [Option.some.injEq] at h
    subst h
    have hsp : spanHull (matchSpans tid editor 1) = some (f, t) := by
      rw [← findAnchorRange_eq_spanHull]; exact hfr
    cases hms : matchSpans tid editor 1 with
    | nil => rw [hms] at hsp; simp [spanHull] at hsp
    | cons s rest =>
      rw [hms] at hsp
      simp only [spanHull, Option.some.injEq, Prod.mk.injEq] at hsp
      obtain ⟨hf, ht⟩ := hsp
      rcases hx with hx | hx
      · rw [← hf] at hx
        exact takeChars_before_first tid editor 1 s rest hms x hx
      · rw [List.mem_append] at hx
        rcases hx with hx | hx
        · simp at hx; subst hx; simp [nodeMatches]
        · rw [← ht] at hx
          exact dropChars_after_last tid editor 1 s rest hms x hx
  | none =>
    have hnm : ∀ n ∈ editor, nodeMatches tid n = false :=
      (findAnchorRange_none_iff editor tid).mp hfr
    rcases hx with hx | hx
    · obtain ⟨m, hm, hxm⟩ := takeChars_marks editor _ x hx
      rw [nodeMatches_of_marks_eq tid x m hxm]; exact hnm m hm
    · rw [List.mem_append] at hx
      rcases hx with hx | hx
      · simp at hx; subst hx; simp [nodeMatches]
      · obtain ⟨m, hm, hxm⟩ := dropChars_marks editor _ x hx
        rw [nodeMatches_of_marks_eq tid x m hxm]; exact hnm m hm

theorem acceptTransaction_anchor_gone (editor : Doc) (tid : Str) (patch : AIPatch) (f t : Nat)
    (h : acceptRange editor tid patch = some (f, t)) :
    findAnchorRange (some (applyAcceptTransaction editor f t patch.proposedText)) tid = none :=
  (findAnchorRange_none_iff _ tid).mpr (applyAccept_no_anchor editor tid patch f t _ h)

/-!
## Lemmas: reduction of the handlers on a resolved state
-/

theorem handleAcceptPatch_some (threadId : Str) (patch : AIPatch) (documentId : Str)
    (st : AppState) (now : Nat) (editor : Doc) (f t : Nat)
    (hEd : st.editor = some editor) (hR : acceptRange editor threadId patch = some (f, t)) :
    handleAcceptPatch threadId patch documentId st now =
      (⟨some (applyAcceptTransaction editor f t patch.proposedText),
        (updatePatch st.patchStorage documentId patch.id
          { status := some .accepted } now).1,
        toggleResolveThread st.commentStorage threadId⟩, none) := by
  simp only [handleAcceptPatch, hEd, hR]

theorem handleAcceptPatch_notFound (threadId : Str) (patch : AIPatch) (documentId : Str)
    (st : AppState) (now : Nat) (editor : Doc)
    (hEd : st.editor = some editor) (hR : acceptRange editor threadId patch = none) :
    handleAcceptPatch threadId patch documentId st now = (st, some .textNotFound) := by
  simp only [handleAcceptPatch, hEd, hR]

theorem handleRejectPatch_eq (threadId : Str) (patch : AIPatch) (documentId : Str)
    (st : AppState) (now : Nat) (editor : Doc) (hEd : st.editor = some editor) :
    handleRejectPatch threadId patch documentId st now =
      (⟨some (match findAnchorRange (some editor) threadId with
              | some r => applyUnsetComment editor r.1 r.2
              | none => editor),
        (updatePatch st.patchStorage documentId patch.id
          { status := some .rejected } now).1,
        toggleResolveThread st.commentStorage threadId⟩, none) := by
  simp only [handleRejectPatch, hEd]

/-!
## Lemmas: spans of segmented documents
-/

theorem docLen_cons (n : TextNode) (d : Doc) : docLen (n :: d) = n.text.length + docLen d := by
  simp [docLen]

theorem docLen_append (d1 d2 : Doc) : docLen (d1 ++ d2) = docLen d1 + docLen d2 := by
  simp [docLen]

theorem matchSpans_cons (a : Str) (n : TextNode) (rest : Doc) (pos : Nat) :
    matchSpans a (n :: rest) pos =
      (if nodeMatches a n = true then [(pos, pos + n.text.length)] else []) ++
        matchSpans a rest (pos + n.text.length) := rfl

theorem matchSpans_append (a : Str) (d1 : Doc) :
    ∀ (d2 : Doc) (pos : Nat),
      matchSpans a (d1 ++ d2) pos =
        matchSpans a d1 pos ++ matchSpans a d2 (pos + docLen d1) := by
  induction d1 with
  | nil => intro d2 pos; simp [matchSpans, docLen]
  | cons n d' ih =>
    intro d2 pos
    rw [List.cons_append, matchSpans_cons, matchSpans_cons, ih, docLen_cons,
      List.append_assoc, Nat.add_assoc]

theorem matchSpans_allMatch_head (a : Str) (n : TextNode) (d' : Doc) (pos : Nat)
    (hn : nodeMatches a n = true) :
    matchSpans a (n :: d') pos =
      (pos, pos + n.text.length) :: matchSpans a d' (pos + n.text.length) := by
  simp [matchSpans, hn]

theorem matchSpans_allMatch_getLastD (a : Str) (d : Doc) :
    ∀ (pos : Nat) (q : Nat × Nat), (∀ n ∈ d, nodeMatches a n = true) → d ≠ [] →
      ((matchSpans a d pos).getLastD q).2 = pos + docLen d := by
  induction d with
  | nil => intro pos q _ h; exact absurd rfl h
  | cons n d' ih =>
    intro pos q hall _
    have hn : nodeMatches a n = true := hall n (List.mem_cons_self n d')
    rw [matchSpans_allMatch_head a n d' pos hn, List.getLastD_cons]
    by_cases hd : d' = []
    · subst hd
      simp [matchSpans, List.getLastD, docLen]
    · rw [ih _ _ (fun m hm => hall m (List.mem_cons_of_mem _ hm)) hd, docLen_cons]
      omega

theorem spanHull_allMatch (a : Str) (d : Doc) (pos : Nat)
    (hall : ∀ n ∈ d, nodeMatches a n = true) (hne : d ≠ []) :
    spanHull (matchSpans a d pos) = some (pos, pos + docLen d) := by
  cases d with
  | nil => exact absurd rfl hne
  | cons n d' =>
    rw [matchSpans_allMatch_head a n d' pos (hall n (List.mem_cons_self n d'))]
    simp only [spanHull, Option.some.injEq, Prod.mk.injEq, true_and]
    by_cases hd : d' = []
    · subst hd
      simp [matchSpans, List.getLastD, docLen]
    · rw [matchSpans_allMatch_getLastD a d' _ _
        (fun m hm => hall m (List.mem_cons_of_mem _ hm)) hd, docLen_cons]
      omega

theorem getLastD_append_right {α : Type} (l1 : List α) (y : α) (l2 : List α) :
    ∀ q, (l1 ++ y :: l2).getLastD q = l2.getLastD y := by
  induction l1 with
  | nil => intro q; rw [List.nil_append]; exact List.getLastD_cons q y l2
  | cons x xs ih => intro q; rw [List.cons_append, List.getLastD_cons, ih]

theorem spanHull_two_allMatch (a : Str) (s1 s2 : Doc) (p1 p2 : Nat)
    (h1 : ∀ n ∈ s1, nodeMatches a n = true) (h2 : ∀ n ∈ s2, nodeMatches a n = true)
    (hne1 : s1 ≠ []) (hne2 : s2 ≠ []) :
    spanHull (matchSpans a s1 p1 ++ matchSpans a s2 p2) = some (p1, p2 + docLen s2) := by
  cases s1 with
  | nil => exact absurd rfl hne1
  | cons n1 s1' =>
    cases s2 with
    | nil => exact absurd rfl hne2
    | cons n2 s2' =>
      rw [matchSpans_allMatch_head a n1 s1' p1 (h1 n1 (List.mem_cons_self n1 s1')),
        matchSpans_allMatch_head a n2 s2' p2 (h2 n2 (List.mem_cons_self n2 s2'))]
      simp only [List.cons_append, spanHull, Option.some.injEq, Prod.mk.injEq, true_and]
      rw [getLastD_append_right]
      by_cases hd : s2' = []
      · subst hd
        simp [matchSpans, List.getLastD, docLen]
      · rw [matchSpans_allMatch_getLastD a s2' _ _
          (fun m hm => h2 m (List.mem_cons_of_mem _ hm)) hd, docLen_cons]
        omega

theorem findAnchorRange_single_span (a : Str) (pre mid post : Doc)
    (hpre : ∀ n ∈ pre, nodeMatches a n = false)
    (hmid : ∀ n ∈ mid, nodeMatches a n = true)
    (hpost : ∀ n ∈ post, nodeMatches a n = false)
    (hne : mid ≠ []) :
    findAnchorRange (some (pre ++ mid ++ post)) a =
      some (1 + docLen pre, 1 + docLen pre + docLen mid) := by
  have epre : ∀ pos, matchSpans a pre pos = [] := fun pos => (matchSpans_eq_nil a pre pos).mpr hpre
  have epost : ∀ pos, matchSpans a post pos = [] := fun pos => (matchSpans_eq_nil a post pos).mpr hpost
  rw [findAnchorRange_eq_spanHull]
  simp only [matchSpans_append, epre, epost, List.nil_append, List.append_nil]
  rw [spanHull_allMatch a mid (1 + docLen pre) hmid hne]

theorem findAnchorRange_two_spans (a : Str) (d0 s1 b0 s2 c0 : Doc)
    (h0 : ∀ n ∈ d0, nodeMatches a n = false)
    (h1 : ∀ n ∈ s1, nodeMatches a n = true)
    (hb : ∀ n ∈ b0, nodeMatches a n = false)
    (h2 : ∀ n ∈ s2, nodeMatches a n = true)
    (hc : ∀ n ∈ c0, nodeMatches a n = false)
    (hne1 : s1 ≠ []) (hne2 : s2 ≠ []) :
    findAnchorRange (some (d0 ++ s1 ++ b0 ++ s2 ++ c0)) a =
      some (1 + docLen d0, 1 + docLen d0 + docLen s1 + docLen b0 + docLen s2) := by
  have e0 : ∀ pos, matchSpans a d0 pos = [] := fun pos => (matchSpans_eq_nil a d0 pos).mpr h0
  have eb : ∀ pos, matchSpans a b0 pos = [] := fun pos => (matchSpans_eq_nil a b0 pos).mpr hb
  have ec : ∀ pos, matchSpans a c0 pos = [] := fun pos => (matchSpans_eq_nil a c0 pos).mpr hc
  rw [findAnchorRange_eq_spanHull]
  simp only [matchSpans_append, e0, eb, ec, List.nil_append, List.append_nil]
  rw [spanHull_two_allMatch a s1 s2 _ _ h1 h2 hne1 hne2]
  simp only [docLen_append, Option.some.injEq, Prod.mk.injEq, true_and]
  omega

/-!
## Lemmas: the patch storage record
-/

theorem lookupDoc_cons_eq (kv : Str × List AIPatch) (rest : PatchStorage) (docId : Str)
    (h : (kv.1 == docId) = true) : lookupDoc (kv :: rest) docId = some kv.2 := by
  simp [lookupDoc, List.find?_cons, h]

theorem lookupDoc_cons_ne (kv : Str × List AIPatch) (rest : PatchStorage) (docId : Str)
    (h : (kv.1 == docId) = false) : lookupDoc (kv :: rest) docId = lookupDoc rest docId := by
  simp [lookupDoc, List.find?_cons, h]

theorem lookupDoc_setDoc_self (storage : PatchStorage) (documentId : Str) (l : List AIPatch) :
    lookupDoc (setDoc storage documentId l) documentId = some l := by
  induction storage with
  | nil =>
    unfold setDoc
    simp only [List.any_nil, Bool.false_eq_true, if_false, List.nil_append]
    exact lookupDoc_cons_eq (documentId, l) [] documentId (by simp)
  | cons kv rest ih =>
    unfold setDoc at ih ⊢
    by_cases hk : (kv.1 == documentId) = true
    · have hany : ((kv :: rest).any fun x => x.1 == documentId) = true := by
        simp [List.any_cons, hk]
      rw [if_pos hany, List.map_cons, if_pos hk]
      exact lookupDoc_cons_eq (kv.1, l) _ documentId hk
    · have hkf : (kv.1 == documentId) = false := by
        simpa using hk
      by_cases ha : (rest.any fun x => x.1 == documentId) = true
      · have hany : ((kv :: rest).any fun x => x.1 == documentId) = true := by
          simp [List.any_cons, ha]
        rw [if_pos hany, List.map_cons, if_neg hk,
          lookupDoc_cons_ne kv _ documentId hkf]
        rw [if_pos ha] at ih
        exact ih
      · have hany' : ¬(((kv :: rest).any fun x => x.1 == documentId) = true) := by
          simp only [List.any_cons, hkf, Bool.false_or]
          exact ha
        rw [if_neg hany', List.cons_append, lookupDoc_cons_ne kv _ documentId hkf]
        rw [if_neg ha] at ih
        exact ih

theorem lookupDoc_map_update (rest : PatchStorage) (documentId otherId : Str)
    (l : List AIPatch) (hdo : (documentId == otherId) = false) :
    lookupDoc (rest.map fun x => if (x.1 == documentId) = true then (x.1, l) else x) otherId =
      lookupDoc rest otherId := by
  induction rest with
  | nil => rfl
  | cons kv rest ih =>
    rw [List.map_cons]
    by_cases hk : (kv.1 == documentId) = true
    · have hkeq : kv.1 = documentId := by simpa [beq_iff_eq] using hk
      have hko : (kv.1 == otherId) = false := by rw [hkeq]; exact hdo
      rw [if_pos hk, lookupDoc_cons_ne (kv.1, l) _ otherId hko,
        lookupDoc_cons_ne kv rest otherId hko, ih]
    · by_cases hko : (kv.1 == otherId) = true
      · rw [if_neg hk, lookupDoc_cons_eq kv _ otherId hko,
          lookupDoc_cons_eq kv rest otherId hko]
      · have hkof : (kv.1 == otherId) = false := by simpa using hko
        rw [if_neg hk, lookupDoc_cons_ne kv _ otherId hkof,
          lookupDoc_cons_ne kv rest otherId hkof, ih]

theorem lookupDoc_append_single (rest : PatchStorage) (documentId otherId : Str)
    (l : List AIPatch) (hdo : (documentId == otherId) = false) :
    lookupDoc (rest ++ [(documentId, l)]) otherId = lookupDoc rest otherId := by
  induction rest with
  | nil => rw [List.nil_append, lookupDoc_cons_ne (documentId, l) [] otherId hdo]
  | cons kv rest ih =>
    rw [List.cons_append]
    by_cases hko : (kv.1 == otherId) = true
    · rw [lookupDoc_cons_eq kv _ otherId hko, lookupDoc_cons_eq kv rest otherId hko]
    · have hkof : (kv.1 == otherId) = false := by simpa using hko
      rw [lookupDoc_cons_ne kv _ otherId hkof, lookupDoc_cons_ne kv rest otherId hkof, ih]

theorem lookupDoc_setDoc_other (storage : PatchStorage) (documentId otherId : Str)
    (l : List AIPatch) (h : otherId ≠ documentId) :
    lookupDoc (setDoc storage documentId l) otherId = lookupDoc storage otherId := by
  have hdo : (documentId == otherId) = false := by
    simp only [beq_eq_false_iff_ne]
    exact fun e => h e.symm
  unfold setDoc
  by_cases ha : (storage.any fun x => x.1 == documentId) = true
  · rw [if_pos ha]
    exact lookupDoc_map_update storage documentId otherId l hdo
  · rw [if_neg ha]
    exact lookupDoc_append_single storage documentId otherId l hdo

theorem updateFirstMatch_split (pre : List AIPatch) (p : AIPatch) (post : List AIPatch)
    (u : PatchUpdates) (now : Nat)
    (hpre : ∀ q ∈ pre, (q.id == p.id) = false) :
    updateFirstMatch (pre ++ p :: post) p.id u now =
      some (pre ++ applyPatchUpdates p u now :: post, applyPatchUpdates p u now) := by
  induction pre with
  | nil => simp [updateFirstMatch]
  | cons q qre ih =>
    have hq : (q.id == p.id) = false := hpre q (List.mem_cons_self q qre)
    simp [updateFirstMatch, hq, ih (fun r hr => hpre r (List.mem_cons_of_mem _ hr))]

theorem updateFirstMatch_none (patches : List AIPatch) (pid : Str) (u : PatchUpdates)
    (now : Nat) (h : ∀ q ∈ patches, (q.id == pid) = false) :
    updateFirstMatch patches pid u now = none := by
  induction patches with
  | nil => rfl
  | cons q rest ih =>
    have hq : (q.id == pid) = false := h q (List.mem_cons_self q rest)
    simp [updateFirstMatch, hq, ih (fun r hr => h r (List.mem_cons_of_mem _ hr))]

theorem updatePatch_found (storage : PatchStorage) (documentId : Str)
    (pre post : List AIPatch) (p : AIPatch) (u : PatchUpdates) (now : Nat)
    (hLk : lookupDoc storage documentId = some (pre ++ p :: post))
    (hpre : ∀ q ∈ pre, (q.id == p.id) = false) :
    updatePatch (.ok storage) documentId p.id u now =
      (.ok (setDoc storage documentId (pre ++ applyPatchUpdates p u now :: post)),
        some (applyPatchUpdates p u now)) := by
  simp only [updatePatch, hLk, updateFirstMatch_split pre p post u now hpre]

theorem updatePatch_noDoc (storage : PatchStorage) (documentId pid : Str)
    (u : PatchUpdates) (now : Nat) (hLk : lookupDoc storage documentId = none) :
    updatePatch (.ok storage) documentId pid u now = (.ok storage, none) := by
  simp only [updatePatch, hLk]

theorem updatePatch_noPatch (storage : PatchStorage) (documentId pid : Str)
    (patches : List AIPatch) (u : PatchUpdates) (now : Nat)
    (hLk : lookupDoc storage documentId = some patches)
    (h : ∀ q ∈ patches, (q.id == pid) = false) :
    updatePatch (.ok storage) documentId pid u now = (.ok storage, none) := by
  simp only [updatePatch, hLk, updateFirstMatch_none patches pid u now h]

/-!
## Lemmas: reduction of the two-tier range lookup
-/

theorem acceptRange_resolver (editor : Doc) (tid : Str) (patch : AIPatch) (r : Nat × Nat)
    (hfr : findAnchorRange (some editor) tid = some r) :
    acceptRange editor tid patch = some r := by
  unfold acceptRange
  rw [hfr]

theorem acceptRange_fallback (editor : Doc) (tid : Str) (patch : AIPatch) (i : Nat)
    (hfr : findAnchorRange (some editor) tid = none)
    (hidx : indexOfSub (trimChars patch.originalText) (getText editor) = some i) :
    acceptRange editor tid patch =
      some (i + 1, i + 1 + (trimChars patch.originalText).length) := by
  simp only [acceptRange, hfr, hidx]

theorem acceptRange_fallback_none (editor : Doc) (tid : Str) (patch : AIPatch)
    (hfr : findAnchorRange (some editor) tid = none)
    (hidx : indexOfSub (trimChars patch.originalText) (getText editor) = none) :
    acceptRange editor tid patch = none := by
  simp only [acceptRange, hfr, hidx]

/-!
## Lemmas: orphan cleanup
-/

theorem deleteComment_ok (l : List CommentThread) (id : Str) :
    deleteComment (.ok l) id = .ok (l.filter (fun c => !(c.id == id))) := rfl

theorem foldl_deleteComment_ok (ts : List CommentThread) :
    ∀ l : List CommentThread,
      ts.foldl (fun s t => deleteComment s t.id) (.ok l) =
        .ok (l.filter (fun c => ts.all (fun t => !(c.id == t.id)))) := by
  induction ts with
  | nil => intro l; simp
  | cons t ts' ih =>
    intro l
    simp only [List.foldl_cons, deleteComment_ok, ih, List.filter_filter]
    congr 1
    apply List.filter_congr
    intro c _
    simp [List.all_cons, Bool.and_comm]

theorem mem_getDocumentComments (threads : List CommentThread) (docId : Str)
    (t : CommentThread) :
    t ∈ getDocumentComments (.ok threads) docId ↔
      t ∈ threads ∧ (t.documentId == docId) = true := by
  simp [getDocumentComments, List.mem_mergeSort, List.mem_filter, readFromStorage]

/-!
## Lemmas: the fallback substring search finds the first occurrence
-/

theorem indexOfSub_first (needle : Str) (hay : Str) :
    ∀ i, indexOfSub needle hay = some i →
      beginsWith needle (hay.drop i) = true ∧
        ∀ j, j < i → beginsWith needle (hay.drop j) = false := by
  induction hay with
  | nil =>
    intro i h
    by_cases hb : beginsWith needle [] <;> simp [indexOfSub, hb] at h
    subst h
    exact ⟨hb, fun j hj => absurd hj (Nat.not_lt_zero j)⟩
  | cons c t ih =>
    intro i h
    by_cases hb : beginsWith needle (c :: t)
    · simp [indexOfSub, hb] at h
      subst h
      exact ⟨hb, fun j hj => absurd hj (Nat.not_lt_zero j)⟩
    · rw [Bool.not_eq_true] at hb
      simp only [indexOfSub, hb, Bool.false_eq_true, if_false] at h
      cases hit : indexOfSub needle t with
      | none => rw [hit] at h; simp at h
      | some i' =>
        rw [hit] at h
        simp at h
        subst h
        obtain ⟨h1, h2⟩ := ih i' hit
        refine ⟨by simpa [List.drop_succ_cons] using h1, ?_⟩
        intro j hj
        cases j with
        | zero => simpa using hb
        | succ j' =>
          rw [List.drop_succ_cons]
          exact h2 j' (by omega)

/-!
## Claims
-/

/-- C5: for every document and anchor identifier, anchor resolution sets the
range start at the first text node carrying a matching annotation and extends
the range end past every subsequent matching text node in document order,
including non-adjacent ones; for a document containing exactly one contiguous
annotated span for the identifier it returns exactly that span's position
bounds, and for two disjoint matching spans it returns a single range
spanning both and the unrelated text between them. -/
theorem anchor_resolution_span_hull :
    (∀ (d : Doc) (a : Str) (s : Nat × Nat) (rest : List (Nat × Nat)),
        matchSpans a d 1 = s :: rest →
        findAnchorRange (some d) a = some (s.1, (rest.getLastD s).2)) ∧
    (∀ (a : Str) (pre mid post : Doc),
        (∀ n ∈ pre, nodeMatches a n = false) →
        (∀ n ∈ mid, nodeMatches a n = true) →
        (∀ n ∈ post, nodeMatches a n = false) →
        mid ≠ [] →
        findAnchorRange (some (pre ++ mid ++ post)) a =
          some (1 + docLen pre, 1 + docLen pre + docLen mid)) ∧
    (∀ (a : Str) (d0 s1 b0 s2 c0 : Doc),
        (∀ n ∈ d0, nodeMatches a n = false) →
        (∀ n ∈ s1, nodeMatches a n = true) →
        (∀ n ∈ b0, nodeMatches a n = false) →
        (∀ n ∈ s2, nodeMatches a n = true) →
        (∀ n ∈ c0, nodeMatches a n = false) →
        s1 ≠ [] → s2 ≠ [] →
        findAnchorRange (some (d0 ++ s1 ++ b0 ++ s2 ++ c0)) a =
          some (1 + docLen d0,
            1 + docLen d0 + docLen s1 + docLen b0 + docLen s2)) := by
  refine ⟨?_, findAnchorRange_single_span, findAnchorRange_two_spans⟩
  intro d a s rest h
  rw [findAnchorRange_eq_spanHull, h]
  rfl

/-- Witness for C5: a single annotated span in the middle of a document, and
two disjoint annotated spans whose hull swallows the text between them. -/
theorem anchor_resolution_span_hull_witness :
    findAnchorRange
        (some ([⟨"He".toList, []⟩] ++ [⟨"llo".toList, [⟨commentMarkName, "t1".toList⟩]⟩] ++
          [⟨" world".toList, []⟩])) ("t1".toList) = some (3, 6) ∧
    findAnchorRange
        (some ([⟨"ab".toList, []⟩] ++ [⟨"cd".toList, [⟨commentMarkName, "t2".toList⟩]⟩] ++
          [⟨"ef".toList, []⟩] ++ [⟨"gh".toList, [⟨commentMarkName, "t2".toList⟩]⟩] ++
          [⟨"ij".toList, []⟩])) ("t2".toList) = some (3, 9) := by
  constructor
  · have h := anchor_resolution_span_hull.2.1 ("t1".toList)
      [⟨"He".toList, []⟩] [⟨"llo".toList, [⟨commentMarkName, "t1".toList⟩]⟩]
      [⟨" world".toList, []⟩] (by decide) (by decide) (by decide) (by decide)
    rw [h]
    decide
  · have h := anchor_resolution_span_hull.2.2 ("t2".toList)
      [⟨"ab".toList, []⟩] [⟨"cd".toList, [⟨commentMarkName, "t2".toList⟩]⟩]
      [⟨"ef".toList, []⟩] [⟨"gh".toList, [⟨commentMarkName, "t2".toList⟩]⟩]
      [⟨"ij".toList, []⟩] (by decide) (by decide) (by decide) (by decide) (by decide)
      (by decide) (by decide)
    rw [h]
    decide

/-- C6: for all documents and identifiers not present as an annotation in the
document, anchor resolution returns null rather than an exception, and the
same holds when the editor handle is absent. -/
theorem anchor_resolution_not_found :
    (∀ (d : Doc) (a : Str), (∀ n ∈ d, nodeMatches a n = false) →
        findAnchorRange (some d) a = none) ∧
    (∀ a : Str, findAnchorRange none a = none) :=
  ⟨fun d a h => (findAnchorRange_none_iff d a).mpr h, fun _ => rfl⟩

/-- Witness for C6: an unannotated document and an absent editor handle. -/
theorem anchor_resolution_not_found_witness :
    findAnchorRange (some [⟨"Hello world".toList, []⟩]) ("t9".toList) = none ∧
    findAnchorRange none ("t9".toList) = none :=
  ⟨anchor_resolution_not_found.1 _ _ (by decide), anchor_resolution_not_found.2 _⟩

/-- C2 (amended): on accept, a range found by the anchor resolver is always
used and the fallback never runs (the result is the splice at the resolver's
range, whatever the original text); otherwise the fallback locates the first
occurrence of the original-text snapshot trimmed of leading and trailing
whitespace — `patch.originalText.trim()`, src/unnamed/part_000:300 — verbatim
in the document's plain text, maps a found character offset i to document
position i + 1, and accept replaces exactly the range of the trimmed
snapshot's length; in particular, for originalText "foo" in the plain text
"abc foo bar", accept leaves the document as
"abc " ++ proposedText ++ " bar". -/
theorem accept_range_strategy :
    (∀ (st : AppState) (threadId : Str) (patch : AIPatch) (documentId : Str) (now : Nat)
        (editor : Doc) (f t : Nat),
        st.editor = some editor →
        findAnchorRange (some editor) threadId = some (f, t) →
        (handleAcceptPatch threadId patch documentId st now).1.editor =
          some (applyAcceptTransaction editor f t patch.proposedText)) ∧
    (∀ (st : AppState) (threadId : Str) (patch : AIPatch) (documentId : Str) (now : Nat)
        (editor : Doc) (i : Nat),
        st.editor = some editor →
        findAnchorRange (some editor) threadId = none →
        indexOfSub (trimChars patch.originalText) (getText editor) = some i →
        (handleAcceptPatch threadId patch documentId st now).1.editor =
          some (applyAcceptTransaction editor (i + 1)
            (i + 1 + (trimChars patch.originalText).length) patch.proposedText)) ∧
    (∀ (needle hay : Str) (i : Nat),
        indexOfSub needle hay = some i →
        beginsWith needle (hay.drop i) = true ∧
          ∀ j, j < i → beginsWith needle (hay.drop j) = false) ∧
    (∀ proposed : Str,
        ((handleAcceptPatch ("t1".toList)
            ⟨"p1".toList, "d1".toList, "t1".toList, "foo".toList, proposed,
              .open_, 0, 0⟩
            ("d1".toList)
            ⟨some [⟨"abc foo bar".toList, []⟩], .ok [], .ok []⟩ 0).1.editor).map getText =
          some ("abc ".toList ++ proposed ++ " bar".toList)) := by
  refine ⟨?_, ?_, fun needle hay i h => indexOfSub_first needle hay i h, ?_⟩
  · intro st threadId patch documentId now editor f t hEd hfr
    rw [handleAcceptPatch_some threadId patch documentId st now editor f t hEd
      (acceptRange_resolver editor threadId patch (f, t) hfr)]
  · intro st threadId patch documentId now editor i hEd hfr hidx
    rw [handleAcceptPatch_some threadId patch documentId st now editor (i + 1)
      (i + 1 + (trimChars patch.originalText).length) hEd
      (acceptRange_fallback editor threadId patch i hfr hidx)]
  · intro proposed
    have hfr : findAnchorRange (some [⟨"abc foo bar".toList, []⟩]) ("t1".toList) = none := by
      decide
    have hidx :
        indexOfSub (trimChars ("foo".toList)) (getText [⟨"abc foo bar".toList, []⟩]) =
          some 4 := by decide
    have hR := acceptRange_fallback [⟨"abc foo bar".toList, []⟩] ("t1".toList)
      ⟨"p1".toList, "d1".toList, "t1".toList, "foo".toList, proposed, .open_, 0, 0⟩
      4 hfr hidx
    rw [handleAcceptPatch_some ("t1".toList)
      ⟨"p1".toList, "d1".toList, "t1".toList, "foo".toList, proposed, .open_, 0, 0⟩
      ("d1".toList) ⟨some [⟨"abc foo bar".toList, []⟩], .ok [], .ok []⟩ 0
      [⟨"abc foo bar".toList, []⟩] (4 + 1) (4 + 1 + (trimChars ("foo".toList)).length)
      rfl hR]
    simp only [Option.map_some']
    rw [getText_applyAcceptTransaction]
    rw [(by decide :
        (getText [⟨"abc foo bar".toList, []⟩]).take (4 + 1 - 1) = "abc ".toList),
      (by decide :
        (getText [⟨"abc foo bar".toList, []⟩]).drop
            (4 + 1 + (trimChars ("foo".toList)).length - 1) = " bar".toList)]

/-- Witness for C2: the resolver-preferred branch at a marked document, the
first-occurrence property of the substring search at a concrete offset, and
the "abc foo bar" example with proposedText "XY". -/
theorem accept_range_strategy_witness :
    (handleAcceptPatch ("t1".toList)
        ⟨"p1".toList, "d1".toList, "t1".toList, "world".toList, "W".toList, .open_, 0, 0⟩
        ("d1".toList)
        ⟨some [⟨"Hello ".toList, []⟩, ⟨"world".toList, [⟨commentMarkName, "t1".toList⟩]⟩],
          .ok [], .ok []⟩ 0).1.editor =
      some (applyAcceptTransaction
        [⟨"Hello ".toList, []⟩, ⟨"world".toList, [⟨commentMarkName, "t1".toList⟩]⟩]
        7 12 ("W".toList)) ∧
    beginsWith ("foo".toList) (("abc foo bar".toList).drop 4) = true ∧
    ((handleAcceptPatch ("t1".toList)
        ⟨"p1".toList, "d1".toList, "t1".toList, "foo".toList, "XY".toList, .open_, 0, 0⟩
        ("d1".toList)
        ⟨some [⟨"abc foo bar".toList, []⟩], .ok [], .ok []⟩ 0).1.editor).map getText =
      some ("abc XY bar".toList) := by
  refine ⟨?_, ?_, ?_⟩
  · exact accept_range_strategy.1 _ ("t1".toList) _ ("d1".toList) 0 _ 7 12 rfl (by decide)
  · exact (accept_range_strategy.2.2.1 ("foo".toList) ("abc foo bar".toList) 4 (by decide)).1
  · have h := accept_range_strategy.2.2.2 ("XY".toList)
    rw [h]
    decide

/-- Counterexample for C2 as stated: the fallback searches the snapshot
trimmed of surrounding whitespace, not the snapshot verbatim. First input:
originalText " zzz " (padded) in the document "ab zzz" — the snapshot never
occurs verbatim in the plain text, yet accept succeeds and mutates the
document to "ab W" instead of surfacing a failure. Second input:
originalText " foo " in the document "x foo y" — the snapshot occurs
verbatim at character offset 1, so the claim's mapping predicts the replaced
range starting at position 2 and covering 5 characters (leaving "xWy"), but
accept replaces the trimmed occurrence's range and leaves "x W y". -/
theorem accept_fallback_verbatim_cex :
    (indexOfSub (" zzz ".toList) (getText [⟨"ab zzz".toList, []⟩]) = none ∧
      (handleAcceptPatch ("t1".toList)
          ⟨"p1".toList, "d1".toList, "t1".toList, " zzz ".toList, "W".toList, .open_, 0, 0⟩
          ("d1".toList) ⟨some [⟨"ab zzz".toList, []⟩], .ok [], .ok []⟩ 0).2 = none ∧
      ((handleAcceptPatch ("t1".toList)
          ⟨"p1".toList, "d1".toList, "t1".toList, " zzz ".toList, "W".toList, .open_, 0, 0⟩
          ("d1".toList) ⟨some [⟨"ab zzz".toList, []⟩], .ok [], .ok []⟩ 0).1.editor).map
          getText = some ("ab W".toList)) ∧
    (indexOfSub (" foo ".toList) (getText [⟨"x foo y".toList, []⟩]) = some 1 ∧
      ((handleAcceptPatch ("t1".toList)
          ⟨"p1".toList, "d1".toList, "t1".toList, " foo ".toList, "W".toList, .open_, 0, 0⟩
          ("d1".toList) ⟨some [⟨"x foo y".toList, []⟩], .ok [], .ok []⟩ 0).1.editor).map
          getText = some ("x W y".toList) ∧
      ("x W y".toList : Str) ≠ "xWy".toList) := by
  decide

/-- C7: when neither the anchor resolver nor the fallback text search locates
the patch's text, accept performs no mutation at all — the state (document,
patch store, comment store) is returned unchanged, so the patch stays as
stored — and the could-not-locate-text condition is surfaced. -/
theorem accept_not_found_no_mutation (st : AppState) (threadId : Str) (patch : AIPatch)
    (documentId : Str) (now : Nat) (editor : Doc)
    (hEd : st.editor = some editor)
    (hfr : findAnchorRange (some editor) threadId = none)
    (hidx : indexOfSub (trimChars patch.originalText) (getText editor) = none) :
    handleAcceptPatch threadId patch documentId st now = (st, some .textNotFound) :=
  handleAcceptPatch_notFound threadId patch documentId st now editor hEd
    (acceptRange_fallback_none editor threadId patch hfr hidx)

/-- Witness for C7: an unannotated document that does not contain the
original text. -/
theorem accept_not_found_no_mutation_witness :
    handleAcceptPatch ("t1".toList)
        ⟨"p1".toList, "d1".toList, "t1".toList, "zzz".toList, "W".toList, .open_, 0, 0⟩
        ("d1".toList) ⟨some [⟨"abc".toList, []⟩], .ok [], .ok []⟩ 7 =
      (⟨some [⟨"abc".toList, []⟩], .ok [], .ok []⟩, some .textNotFound) :=
  accept_not_found_no_mutation _ _ _ _ _ _ rfl (by decide) (by decide)

/-- C3: accept is idempotent at the status level — the accept action is only
rendered by `PatchCard` while the patch is open, so invoking accept on a
patch whose status is already accepted leaves the whole state, in particular
the document content, unchanged. -/
theorem accept_idempotent_at_status (st : AppState) (threadId : Str) (patch : AIPatch)
    (documentId : Str) (now : Nat) (h : patch.status = .accepted) :
    acceptPatchViaCard threadId patch documentId st now = (st, none) := by
  unfold acceptPatchViaCard
  rw [h]
  rfl

/-- Witness for C3: a second accept of an already-accepted patch is a no-op. -/
theorem accept_idempotent_at_status_witness :
    acceptPatchViaCard ("t1".toList)
        ⟨"p1".toList, "d1".toList, "t1".toList, "a".toList, "b".toList, .accepted, 0, 0⟩
        ("d1".toList) ⟨some [⟨"abc".toList, []⟩], .ok [], .ok []⟩ 3 =
      (⟨some [⟨"abc".toList, []⟩], .ok [], .ok []⟩, none) :=
  accept_idempotent_at_status _ _ _ _ _ rfl

/-- C4: rejecting a patch never mutates document content: for any patch and
any state — anchor resolvable or not, editor present or not — the document's
plain text is unchanged; and on a present editor with the patch in the store,
reject only sets the patch's status to rejected (refreshing its timestamp),
flips the owning thread's resolved state, and leaves every other patch, every
other thread and the document text untouched. -/
theorem reject_never_mutates_content :
    (∀ (st : AppState) (threadId : Str) (patch : AIPatch) (documentId : Str) (now : Nat),
        ((handleRejectPatch threadId patch documentId st now).1.editor).map getText =
          st.editor.map getText) ∧
    (∀ (st : AppState) (threadId : Str) (patch : AIPatch) (documentId : Str) (now : Nat)
        (editor : Doc) (storage : PatchStorage) (pre post : List AIPatch)
        (threads : List CommentThread),
        st.editor = some editor →
        st.patchStorage = .ok storage →
        st.commentStorage = .ok threads →
        lookupDoc storage documentId = some (pre ++ patch :: post) →
        (∀ q ∈ pre, (q.id == patch.id) = false) →
        handleRejectPatch threadId patch documentId st now =
          (⟨some (match findAnchorRange (some editor) threadId with
                  | some r => applyUnsetComment editor r.1 r.2
                  | none => editor),
            .ok (setDoc storage documentId
              (pre ++ applyPatchUpdates patch { status := some .rejected } now :: post)),
            .ok (threads.map fun th =>
              if th.id == threadId then { th with resolved := !th.resolved } else th)⟩,
            none) ∧
        (applyPatchUpdates patch { status := some .rejected } now).status = .rejected ∧
        (applyPatchUpdates patch { status := some .rejected } now).id = patch.id) := by
  constructor
  · intro st threadId patch documentId now
    cases hEd : st.editor with
    | none => simp [handleRejectPatch, hEd]
    | some editor =>
      rw [handleRejectPatch_eq threadId patch documentId st now editor hEd]
      cases hfr : findAnchorRange (some editor) threadId with
      | none => simp
      | some r =>
        obtain ⟨h1, h2⟩ := findAnchorRange_pos_bounds editor threadId r.1 r.2 (by rw [hfr])
        simp [getText_applyUnsetComment editor r.1 r.2 h1 h2]
  · intro st threadId patch documentId now editor storage pre post threads
      hEd hPS hCS hLk hpre
    refine ⟨?_, rfl, rfl⟩
    rw [handleRejectPatch_eq threadId patch documentId st now editor hEd, hPS, hCS,
      updatePatch_found storage documentId pre post patch _ now hLk hpre]
    rfl

/-- Witness for C4: rejecting an open patch on a marked document leaves the
plain text unchanged while the patch becomes rejected. -/
theorem reject_never_mutates_content_witness :
    (handleRejectPatch ("t1".toList)
        ⟨"p1".toList, "d1".toList, "t1".toList, "world".toList, "W".toList, .open_, 0, 0⟩
        ("d1".toList)
        ⟨some [⟨"Hello ".toList, []⟩, ⟨"world".toList, [⟨commentMarkName, "t1".toList⟩]⟩],
          .ok [("d1".toList,
            [⟨"p1".toList, "d1".toList, "t1".toList, "world".toList, "W".toList,
              .open_, 0, 0⟩])],
          .ok []⟩ 5).2 = none ∧
    ((handleRejectPatch ("t1".toList)
        ⟨"p1".toList, "d1".toList, "t1".toList, "world".toList, "W".toList, .open_, 0, 0⟩
        ("d1".toList)
        ⟨some [⟨"Hello ".toList, []⟩, ⟨"world".toList, [⟨commentMarkName, "t1".toList⟩]⟩],
          .ok [("d1".toList,
            [⟨"p1".toList, "d1".toList, "t1".toList, "world".toList, "W".toList,
              .open_, 0, 0⟩])],
          .ok []⟩ 5).1.editor).map getText = some ("Hello world".toList) := by
  have h := (reject_never_mutates_content.2
    ⟨some [⟨"Hello ".toList, []⟩, ⟨"world".toList, [⟨commentMarkName, "t1".toList⟩]⟩],
      .ok [("d1".toList,
        [⟨"p1".toList, "d1".toList, "t1".toList, "world".toList, "W".toList,
          .open_, 0, 0⟩])],
      .ok []⟩
    ("t1".toList)
    ⟨"p1".toList, "d1".toList, "t1".toList, "world".toList, "W".toList, .open_, 0, 0⟩
    ("d1".toList) 5
    [⟨"Hello ".toList, []⟩, ⟨"world".toList, [⟨commentMarkName, "t1".toList⟩]⟩]
    [("d1".toList,
      [⟨"p1".toList, "d1".toList, "t1".toList, "world".toList, "W".toList, .open_, 0, 0⟩])]
    [] [] []
    rfl rfl rfl (by decide) (by decide)).1
  constructor
  · rw [h]
  · rw [h]
    decide

/-- C1 (amended): when a patch is accepted and a range is resolved — by the
anchor resolver or by the fallback text search — the operation replaces the
document content in that range with the patch's proposed text and removes the
anchor annotation as one editor transaction, sets the patch's status to
accepted in the patch store, and toggles the owning thread's resolved flag,
which marks the thread resolved whenever it was not already resolved. -/
theorem accept_patch_contract (st : AppState) (threadId : Str) (patch : AIPatch)
    (documentId : Str) (now : Nat) (editor : Doc) (f t : Nat)
    (storage : PatchStorage) (pre post : List AIPatch) (threads : List CommentThread)
    (hEd : st.editor = some editor)
    (hR : acceptRange editor threadId patch = some (f, t))
    (hPS : st.patchStorage = .ok storage)
    (hCS : st.commentStorage = .ok threads)
    (hLk : lookupDoc storage documentId = some (pre ++ patch :: post))
    (hpre : ∀ q ∈ pre, (q.id == patch.id) = false) :
    handleAcceptPatch threadId patch documentId st now =
      (⟨some (applyAcceptTransaction editor f t patch.proposedText),
        .ok (setDoc storage documentId
          (pre ++ applyPatchUpdates patch { status := some .accepted } now :: post)),
        .ok (threads.map fun th =>
          if th.id == threadId then { th with resolved := !th.resolved } else th)⟩,
        none) ∧
    getText (applyAcceptTransaction editor f t patch.proposedText) =
      (getText editor).take (f - 1) ++ patch.proposedText ++ (getText editor).drop (t - 1) ∧
    findAnchorRange (some (applyAcceptTransaction editor f t patch.proposedText))
      threadId = none ∧
    (applyPatchUpdates patch { status := some .accepted } now).status = .accepted ∧
    (applyPatchUpdates patch { status := some .accepted } now).id = patch.id ∧
    ((∀ th ∈ threads, (th.id == threadId) = true → th.resolved = false) →
      (threads.map fun th =>
          if th.id == threadId then { th with resolved := !th.resolved } else th) =
        threads.map fun th =>
          if th.id == threadId then { th with resolved := true } else th) := by
  refine ⟨?_, getText_applyAcceptTransaction editor f t patch.proposedText,
    acceptTransaction_anchor_gone editor threadId patch f t hR, rfl, rfl, ?_⟩
  · rw [handleAcceptPatch_some threadId patch documentId st now editor f t hEd hR, hPS, hCS,
      updatePatch_found storage documentId pre post patch _ now hLk hpre]
    rfl
  · intro hunres
    apply List.map_congr_left
    intro th hth
    by_cases hid : (th.id == threadId) = true
    · rw [if_pos hid, if_pos hid, hunres th hth hid]
      rfl
    · rw [if_neg hid, if_neg hid]

/-- Witness for C1: accepting an open patch on an unresolved thread replaces
the marked text, erases the anchor, records the accepted status and marks the
thread resolved. -/
theorem accept_patch_contract_witness :
    (handleAcceptPatch ("t1".toList)
        ⟨"p1".toList, "d1".toList, "t1".toList, "world".toList, "W".toList, .open_, 0, 0⟩
        ("d1".toList)
        ⟨some [⟨"Hello ".toList, []⟩, ⟨"world".toList, [⟨commentMarkName, "t1".toList⟩]⟩],
          .ok [("d1".toList,
            [⟨"p1".toList, "d1".toList, "t1".toList, "world".toList, "W".toList,
              .open_, 0, 0⟩])],
          .ok [{ id := "t1".toList, documentId := "d1".toList,
                 highlightedText := "world".toList, messages := [], resolved := false,
                 createdAt := 0, updatedAt := 0, isAIThread := true, aiMode := none }]⟩
        5).2 = none ∧
    ((handleAcceptPatch ("t1".toList)
        ⟨"p1".toList, "d1".toList, "t1".toList, "world".toList, "W".toList, .open_, 0, 0⟩
        ("d1".toList)
        ⟨some [⟨"Hello ".toList, []⟩, ⟨"world".toList, [⟨commentMarkName, "t1".toList⟩]⟩],
          .ok [("d1".toList,
            [⟨"p1".toList, "d1".toList, "t1".toList, "world".toList, "W".toList,
              .open_, 0, 0⟩])],
          .ok [{ id := "t1".toList, documentId := "d1".toList,
                 highlightedText := "world".toList, messages := [], resolved := false,
                 createdAt := 0, updatedAt := 0, isAIThread := true, aiMode := none }]⟩
        5).1.editor).map getText = some ("Hello W".toList) := by
  have h := (accept_patch_contract
    ⟨some [⟨"Hello ".toList, []⟩, ⟨"world".toList, [⟨commentMarkName, "t1".toList⟩]⟩],
      .ok [("d1".toList,
        [⟨"p1".toList, "d1".toList, "t1".toList, "world".toList, "W".toList,
          .open_, 0, 0⟩])],
      .ok [{ id := "t1".toList, documentId := "d1".toList,
             highlightedText := "world".toList, messages := [], resolved := false,
             createdAt := 0, updatedAt := 0, isAIThread := true, aiMode := none }]⟩
    ("t1".toList)
    ⟨"p1".toList, "d1".toList, "t1".toList, "world".toList, "W".toList, .open_, 0, 0⟩
    ("d1".toList) 5
    [⟨"Hello ".toList, []⟩, ⟨"world".toList, [⟨commentMarkName, "t1".toList⟩]⟩]
    7 12
    [("d1".toList,
      [⟨"p1".toList, "d1".toList, "t1".toList, "world".toList, "W".toList, .open_, 0, 0⟩])]
    [] []
    [{ id := "t1".toList, documentId := "d1".toList, highlightedText := "world".toList,
       messages := [], resolved := false, createdAt := 0, updatedAt := 0,
       isAIThread := true, aiMode := none }]
    rfl (by decide) rfl rfl (by decide) (by decide)).1
  constructor
  · rw [h]
  · rw [h]
    decide

/-- Counterexample for C1 as stated: for an open patch whose anchor resolves
but whose owning thread was already resolved by the user, a successful accept
leaves the thread unresolved — the resolved flag is toggled off rather than
set — contradicting that the thread is marked resolved for every open patch
whose anchor resolves. -/
theorem accept_patch_marks_resolved_cex :
    ((⟨some [⟨"Hello ".toList, []⟩, ⟨"world".toList, [⟨commentMarkName, "t1".toList⟩]⟩],
        .ok [("d1".toList,
          [⟨"p1".toList, "d1".toList, "t1".toList, "world".toList, "W".toList,
            .open_, 0, 0⟩])],
        .ok [{ id := "t1".toList, documentId := "d1".toList,
               highlightedText := "world".toList, messages := [], resolved := true,
               createdAt := 0, updatedAt := 0, isAIThread := true, aiMode := none }]⟩ :
        AppState).commentStorage =
      .ok [{ id := "t1".toList, documentId := "d1".toList,
             highlightedText := "world".toList, messages := [], resolved := true,
             createdAt := 0, updatedAt := 0, isAIThread := true, aiMode := none }]) ∧
    (handleAcceptPatch ("t1".toList)
        ⟨"p1".toList, "d1".toList, "t1".toList, "world".toList, "W".toList, .open_, 0, 0⟩
        ("d1".toList)
        ⟨some [⟨"Hello ".toList, []⟩, ⟨"world".toList, [⟨commentMarkName, "t1".toList⟩]⟩],
          .ok [("d1".toList,
            [⟨"p1".toList, "d1".toList, "t1".toList, "world".toList, "W".toList,
              .open_, 0, 0⟩])],
          .ok [{ id := "t1".toList, documentId := "d1".toList,
                 highlightedText := "world".toList, messages := [], resolved := true,
                 createdAt := 0, updatedAt := 0, isAIThread := true, aiMode := none }]⟩
        5).2 = none ∧
    (handleAcceptPatch ("t1".toList)
        ⟨"p1".toList, "d1".toList, "t1".toList, "world".toList, "W".toList, .open_, 0, 0⟩
        ("d1".toList)
        ⟨some [⟨"Hello ".toList, []⟩, ⟨"world".toList, [⟨commentMarkName, "t1".toList⟩]⟩],
          .ok [("d1".toList,
            [⟨"p1".toList, "d1".toList, "t1".toList, "world".toList, "W".toList,
              .open_, 0, 0⟩])],
          .ok [{ id := "t1".toList, documentId := "d1".toList,
                 highlightedText := "world".toList, messages := [], resolved := true,
                 createdAt := 0, updatedAt := 0, isAIThread := true, aiMode := none }]⟩
        5).1.commentStorage =
      .ok [{ id := "t1".toList, documentId := "d1".toList,
             highlightedText := "world".toList, messages := [], resolved := false,
             createdAt := 0, updatedAt := 0, isAIThread := true, aiMode := none }] := by
  refine ⟨rfl, ?_, ?_⟩ <;> decide

/-- C8: on every refresh of comment data with the editor present, every
stored thread of the current document whose anchor annotation no longer
exists in the editor and which is not an AI thread is deleted from the
persisted store — the refresh returns a well-formed store, not an error —
and AI threads are never deleted by orphan cleanup (thread ids being
pairwise distinct, as the store's generated ids are). -/
theorem refresh_deletes_orphans (d : Doc) (documentId : Str)
    (threads : List CommentThread)
    (hids : threads.Pairwise (fun s t => s.id ≠ t.id)) :
    (∃ l, refreshCommentData (some d) documentId (.ok threads) = .ok l) ∧
    (∀ t ∈ threads, t.documentId = documentId → t.isAIThread = false →
      docHasAnchor d t.id = false →
      t ∉ readFromStorage (refreshCommentData (some d) documentId (.ok threads))) ∧
    (∀ t ∈ threads, t.isAIThread = true →
      t ∈ readFromStorage (refreshCommentData (some d) documentId (.ok threads))) := by
  have hres : refreshCommentData (some d) documentId (.ok threads) =
      .ok (threads.filter (fun c =>
        ((getDocumentComments (.ok threads) documentId).filter
          (fun t => !t.isAIThread && !docHasAnchor d t.id)).all
            (fun t => !(c.id == t.id)))) := by
    simp only [refreshCommentData]
    exact foldl_deleteComment_ok _ threads
  refine ⟨⟨_, hres⟩, ?_, ?_⟩
  · intro t ht hdoc hai hanchor hmem
    rw [hres] at hmem
    have hmem' : t ∈ threads.filter (fun c =>
        ((getDocumentComments (.ok threads) documentId).filter
          (fun t => !t.isAIThread && !docHasAnchor d t.id)).all
            (fun t => !(c.id == t.id))) := hmem
    rw [List.mem_filter] at hmem'
    have hall := List.all_eq_true.mp hmem'.2
    have htor : t ∈ (getDocumentComments (.ok threads) documentId).filter
        (fun t => !t.isAIThread && !docHasAnchor d t.id) := by
      rw [List.mem_filter]
      refine ⟨(mem_getDocumentComments threads documentId t).mpr ⟨ht, by simp [hdoc]⟩, ?_⟩
      simp [hai, hanchor]
    have hcontra := hall t htor
    simp at hcontra
  · intro t ht hai
    rw [hres]
    show t ∈ threads.filter (fun c =>
      ((getDocumentComments (.ok threads) documentId).filter
        (fun t => !t.isAIThread && !docHasAnchor d t.id)).all
          (fun t => !(c.id == t.id)))
    rw [List.mem_filter]
    refine ⟨ht, List.all_eq_true.mpr ?_⟩
    intro x hx
    rw [List.mem_filter] at hx
    obtain ⟨hxg, hxp⟩ := hx
    have hxmem : x ∈ threads := ((mem_getDocumentComments threads documentId x).mp hxg).1
    have hxai : x.isAIThread = false := by
      simp only [Bool.and_eq_true, Bool.not_eq_true'] at hxp
      exact hxp.1
    simp only [Bool.not_eq_true', beq_eq_false_iff_ne]
    intro heq
    by_cases htx : t = x
    · rw [htx] at hai
      rw [hai] at hxai
      exact Bool.true_eq_false.mp hxai
    · have hsymm : Symmetric (fun s t : CommentThread => s.id ≠ t.id) := by
        intro a b hab e
        exact hab e.symm
      exact List.Pairwise.forall hsymm hids ht hxmem htx heq

/-- Witness for C8: in the document whose text became "Hello " after the
anchored word "world" was deleted, the orphaned non-AI thread anchored to it
is removed from the store by the next refresh. -/
theorem refresh_deletes_orphans_witness :
    ({ id := "t1".toList, documentId := "d1".toList, highlightedText := "world".toList,
       messages := [], resolved := false, createdAt := 0, updatedAt := 0,
       isAIThread := false, aiMode := none } : CommentThread) ∉
      readFromStorage (refreshCommentData (some [⟨"Hello ".toList, []⟩]) ("d1".toList)
        (.ok [{ id := "t1".toList, documentId := "d1".toList,
                highlightedText := "world".toList, messages := [], resolved := false,
                createdAt := 0, updatedAt := 0, isAIThread := false, aiMode := none }])) :=
  (refresh_deletes_orphans [⟨"Hello ".toList, []⟩] ("d1".toList)
      [{ id := "t1".toList, documentId := "d1".toList, highlightedText := "world".toList,
         messages := [], resolved := false, createdAt := 0, updatedAt := 0,
         isAIThread := false, aiMode := none }]
      (by simp)).2.1 _ (by simp) rfl rfl (by decide)

/-- C9 (amended): every store operation catches storage failures locally and
never propagates an exception; reads degrade to an empty result (or none);
the patch store's create, update and delete degrade to a no-op on the
storage slot for both failure modes; the comment store's writes and deletes
are a no-op when storage is unavailable, but on a corrupt payload they
rebuild the slot from the degraded empty read — replacing the corrupt
payload with the operation applied to the empty list — rather than leaving
the slot untouched. -/
theorem store_failures_degrade :
    (∀ docId : Str, getPatches .unavailable docId = [] ∧ getPatches .corrupt docId = []) ∧
    (∀ docId aid : Str,
      getOpenPatchByAnchor .unavailable docId aid = none ∧
      getOpenPatchByAnchor .corrupt docId aid = none) ∧
    (∀ (docId aid ot pt nid : Str) (now : Nat),
      (createPatch .unavailable docId aid ot pt nid now).1 = .unavailable ∧
      (createPatch .corrupt docId aid ot pt nid now).1 = .corrupt) ∧
    (∀ (docId pid : Str) (u : PatchUpdates) (now : Nat),
      updatePatch .unavailable docId pid u now = (.unavailable, none) ∧
      updatePatch .corrupt docId pid u now = (.corrupt, none)) ∧
    (∀ docId pid : Str,
      deletePatch .unavailable docId pid = .unavailable ∧
      deletePatch .corrupt docId pid = .corrupt) ∧
    (readFromStorage .unavailable = [] ∧ readFromStorage .corrupt = []) ∧
    (∀ docId : Str,
      getDocumentComments .unavailable docId = [] ∧
      getDocumentComments .corrupt docId = []) ∧
    (∀ id : Str, getComment .unavailable id = none ∧ getComment .corrupt id = none) ∧
    (∀ thr : CommentThread,
      createComment .unavailable thr = .unavailable ∧
      createComment .corrupt thr = .ok [thr]) ∧
    (∀ id : Str,
      deleteComment .unavailable id = .unavailable ∧
      deleteComment .corrupt id = .ok []) ∧
    (∀ docId : Str,
      deleteDocumentComments .unavailable docId = .unavailable ∧
      deleteDocumentComments .corrupt docId = .ok []) :=
  ⟨fun _ => ⟨rfl, rfl⟩, fun _ _ => ⟨rfl, rfl⟩, fun _ _ _ _ _ _ => ⟨rfl, rfl⟩,
    fun _ _ _ _ => ⟨rfl, rfl⟩, fun _ _ => ⟨rfl, rfl⟩, ⟨rfl, rfl⟩,
    fun _ => ⟨by simp [getDocumentComments, readFromStorage],
      by simp [getDocumentComments, readFromStorage]⟩,
    fun _ => ⟨rfl, rfl⟩, fun _ => ⟨rfl, rfl⟩, fun _ => ⟨rfl, rfl⟩, fun _ => ⟨rfl, rfl⟩⟩

/-- Counterexample for C9 as stated: a delete on the comment store with a
corrupt payload is not a no-op — the read degrades to the empty list and the
subsequent write replaces the corrupt slot with the serialized empty list. -/
theorem store_failure_delete_not_noop_cex :
    deleteComment .corrupt ("t1".toList) ≠ StorageState.corrupt ∧
    deleteComment .corrupt ("t1".toList) = .ok [] := by
  constructor
  · decide
  · rfl

/-- C10: for every updatePatch call that finds its record, the updated record
keeps its original id, documentId and createdAt while updatedAt is refreshed
to the call time; every other patch of that document (before and after it in
the list) and the bindings of all other documents are left unchanged; and if
the store has failed or is empty, or the document or the patch id does not
exist, the store is unchanged and null is returned. -/
theorem updatePatch_contract :
    (∀ (storage : PatchStorage) (docId : Str) (pre post : List AIPatch) (p : AIPatch)
        (u : PatchUpdates) (now : Nat),
      lookupDoc storage docId = some (pre ++ p :: post) →
      (∀ q ∈ pre, (q.id == p.id) = false) →
      updatePatch (.ok storage) docId p.id u now =
        (.ok (setDoc storage docId (pre ++ applyPatchUpdates p u now :: post)),
          some (applyPatchUpdates p u now)) ∧
      (applyPatchUpdates p u now).id = p.id ∧
      (applyPatchUpdates p u now).documentId = p.documentId ∧
      (applyPatchUpdates p u now).createdAt = p.createdAt ∧
      (applyPatchUpdates p u now).updatedAt = now) ∧
    (∀ (storage : PatchStorage) (docId otherId : Str) (l : List AIPatch),
      otherId ≠ docId →
      lookupDoc (setDoc storage docId l) otherId = lookupDoc storage otherId) ∧
    (∀ (docId pid : Str) (u : PatchUpdates) (now : Nat),
      updatePatch .unavailable docId pid u now = (.unavailable, none) ∧
      updatePatch .corrupt docId pid u now = (.corrupt, none) ∧
      updatePatch .missing docId pid u now = (.missing, none)) ∧
    (∀ (storage : PatchStorage) (docId pid : Str) (u : PatchUpdates) (now : Nat),
      lookupDoc storage docId = none →
      updatePatch (.ok storage) docId pid u now = (.ok storage, none)) ∧
    (∀ (storage : PatchStorage) (docId pid : Str) (patches : List AIPatch)
        (u : PatchUpdates) (now : Nat),
      lookupDoc storage docId = some patches →
      (∀ q ∈ patches, (q.id == pid) = false) →
      updatePatch (.ok storage) docId pid u now = (.ok storage, none)) := by
  refine ⟨?_, ?_, fun _ _ _ _ => ⟨rfl, rfl, rfl⟩, ?_, ?_⟩
  · intro storage docId pre post p u now hLk hpre
    exact ⟨updatePatch_found storage docId pre post p u now hLk hpre, rfl, rfl, rfl, rfl⟩
  · intro storage docId otherId l h
    exact lookupDoc_setDoc_other storage docId otherId l h
  · intro storage docId pid u now hLk
    exact updatePatch_noDoc storage docId pid u now hLk
  · intro storage docId pid patches u now hLk h
    exact updatePatch_noPatch storage docId pid patches u now hLk h

/-- Witness for C10: a concrete update of the only patch of a document, and a
concrete miss on an unknown patch id. -/
theorem updatePatch_contract_witness :
    updatePatch
        (.ok [("d1".toList,
          [⟨"p1".toList, "d1".toList, "t1".toList, "a".toList, "b".toList, .open_, 2, 3⟩])])
        ("d1".toList) ("p1".toList) { status := some .accepted } 9 =
      (.ok [("d1".toList,
        [⟨"p1".toList, "d1".toList, "t1".toList, "a".toList, "b".toList, .accepted, 2, 9⟩])],
        some ⟨"p1".toList, "d1".toList, "t1".toList, "a".toList, "b".toList,
          .accepted, 2, 9⟩) ∧
    updatePatch
        (.ok [("d1".toList,
          [⟨"p1".toList, "d1".toList, "t1".toList, "a".toList, "b".toList, .open_, 2, 3⟩])])
        ("d1".toList) ("p9".toList) { status := some .accepted } 9 =
      (.ok [("d1".toList,
        [⟨"p1".toList, "d1".toList, "t1".toList, "a".toList, "b".toList, .open_, 2, 3⟩])],
        none) := by
  constructor
  · have h := (updatePatch_contract.1
      [("d1".toList,
        [⟨"p1".toList, "d1".toList, "t1".toList, "a".toList, "b".toList, .open_, 2, 3⟩])]
      ("d1".toList) [] []
      ⟨"p1".toList, "d1".toList, "t1".toList, "a".toList, "b".toList, .open_, 2, 3⟩
      { status := some .accepted } 9 (by decide) (by decide)).1
    rw [h]
    decide
  · exact updatePatch_contract.2.2.2.2
      [("d1".toList,
        [⟨"p1".toList, "d1".toList, "t1".toList, "a".toList, "b".toList, .open_, 2, 3⟩])]
      ("d1".toList) ("p9".toList)
      [⟨"p1".toList, "d1".toList, "t1".toList, "a".toList, "b".toList, .open_, 2, 3⟩]
      { status := some .accepted } 9 (by decide) (by decide)
